import Mathlib

/-!
Shallow embedding of the surfacespectra wave-synthesis core
(src/client/src/lib/coordinateTransform.ts, polarWaveEngine.ts, waveEngine.ts)
together with theorems settling the specification claims.

JavaScript numbers are modelled as real numbers (`ℝ`) where transcendental
functions (`Math.tan`, `Math.exp`, `Math.sin`, `Math.log`) occur, and as
rationals (`ℚ`) where the code only performs field arithmetic, so that
concrete states evaluate.  `Math.floor` is `Int.floor`.  `Math.random()`
draws are passed in explicitly as a noise argument.
-/

open Real

namespace SurfaceSpectra

/-- Logical coordinates: `frequency` and `time`, both nominally in `[0,1]`
(src/client/src/lib/coordinateTransform.ts, `LogicalCoordinates`). -/
@[ext]
structure LogicalCoordinates where
  frequency : ℝ
  time : ℝ

/-- Display coordinates `x`, `y`, `z`
(src/client/src/lib/coordinateTransform.ts, `DisplayCoordinates`). -/
@[ext]
structure DisplayCoordinates where
  x : ℝ
  y : ℝ
  z : ℝ

namespace CoordinateTransform

/-- `params.arcSpan = Math.PI / 3` (60 degrees). -/
noncomputable def arcSpan : ℝ := Real.pi / 3

/-- `params.maxRadius = 10`. -/
noncomputable def maxRadius : ℝ := 10

/-- `params.mouthWidth = 0.3`, the finite width at the mouth. -/
noncomputable def mouthWidth : ℝ := 3 / 10

/-- `CoordinateTransform.logicalToDisplay`: maps logical `(frequency, time)`
to display `(x, y, z)`.  `radius = time * maxRadius`; the bilateral split of
frequency at `0.5` gives `normalizedFreq` and a signed `angle`;
`currentWidth = mouthWidth + radius * tan(arcSpan/2)` and
`x = currentWidth * (angle / (arcSpan/2))`. -/
noncomputable def logicalToDisplay (logical : LogicalCoordinates) : DisplayCoordinates :=
  { x := (mouthWidth + (logical.time * maxRadius) * Real.tan (arcSpan / 2)) *
      ((if logical.frequency < 1/2 then
          -((1/2 - logical.frequency) * 2) * (arcSpan / 2)
        else
          ((logical.frequency - 1/2) * 2) * (arcSpan / 2)) / (arcSpan / 2)),
    y := 0,
    z := logical.time * maxRadius }

/-- `CoordinateTransform.displayToLogical`: inverse transform.
`radius = z`, `time = radius / maxRadius`; the half is chosen by the sign of
`x`; after the zero-width guard, `normalizedFreq = clamp(|x| / currentWidth)`
and the frequency is un-mirrored and clamped to `[0,1]`. -/
noncomputable def displayToLogical (display : DisplayCoordinates) : LogicalCoordinates :=
  if mouthWidth + display.z * Real.tan (arcSpan / 2) = 0 then
    { frequency := 1/2, time := max 0 (min 1 (display.z / maxRadius)) }
  else
    { frequency := max 0 (min 1
        (if display.x < 0 then
          1/2 - max 0 (min 1 (|display.x| / (mouthWidth + display.z * Real.tan (arcSpan / 2)))) * (1/2)
        else
          1/2 + max 0 (min 1 (|display.x| / (mouthWidth + display.z * Real.tan (arcSpan / 2)))) * (1/2))),
      time := max 0 (min 1 (display.z / maxRadius)) }

/-- `tan (π/6) > 0`, so the width of the wedge grows with radius. -/
lemma tan_halfSpan_pos : 0 < Real.tan (arcSpan / 2) := by
  have hpi := Real.pi_pos
  have h1 : (0:ℝ) < Real.pi / 3 / 2 := by linarith
  have h2 : Real.pi / 3 / 2 < Real.pi / 2 := by linarith
  simpa [arcSpan] using Real.tan_pos_of_pos_of_lt_pi_div_two h1 h2

/-- The lateral scale factor is strictly positive at nonnegative radius. -/
lemma currentWidth_pos {r : ℝ} (hr : 0 ≤ r) :
    0 < mouthWidth + r * Real.tan (arcSpan / 2) := by
  have h1 := tan_halfSpan_pos
  have h2 : 0 ≤ r * Real.tan (arcSpan / 2) := mul_nonneg hr h1.le
  unfold mouthWidth
  linarith

/-- `logicalToDisplay` sends `(f, t)` to lateral offset
`(mouthWidth + 10 t tan(π/6)) * (2 f - 1)` in both halves. -/
lemma logicalToDisplay_x (f t : ℝ) :
    (logicalToDisplay ⟨f, t⟩).x =
      (mouthWidth + t * maxRadius * Real.tan (arcSpan / 2)) * (2 * f - 1) := by
  have hspan : arcSpan / 2 ≠ 0 := by
    have := Real.pi_pos
    have : 0 < arcSpan / 2 := by unfold arcSpan; linarith
    exact ne_of_gt this
  unfold logicalToDisplay
  by_cases hf : f < 1/2 <;>
    simp only [hf, if_true, if_false, mul_div_assoc] <;>
    rw [div_self hspan] <;> ring

/-- `logicalToDisplay` sends `(f, t)` to depth `z = 10 t`. -/
lemma logicalToDisplay_z (f t : ℝ) :
    (logicalToDisplay ⟨f, t⟩).z = t * maxRadius := rfl

/-- The record produced by `logicalToDisplay`, in closed form. -/
lemma logicalToDisplay_eq (f t : ℝ) :
    logicalToDisplay ⟨f, t⟩ =
      ⟨(mouthWidth + t * maxRadius * Real.tan (arcSpan / 2)) * (2 * f - 1),
        0, t * maxRadius⟩ := by
  ext
  · exact logicalToDisplay_x f t
  · rfl
  · rfl

end CoordinateTransform

open CoordinateTransform

/-- C1: on the whole valid domain `[0,1] × [0,1]` the two coordinate
transforms are exact inverses: `displayToLogical (logicalToDisplay ⟨f, t⟩)`
returns `⟨f, t⟩` exactly (hence in particular within `1e-6` relative
error), for every `t` including `t = 0`. -/
theorem C1_coordinate_roundtrip (f t : ℝ)
    (hf0 : 0 ≤ f) (hf1 : f ≤ 1) (ht0 : 0 ≤ t) (ht1 : t ≤ 1) :
    displayToLogical (logicalToDisplay ⟨f, t⟩) = ⟨f, t⟩ := by
  have hrmax : (0:ℝ) < maxRadius := by unfold maxRadius; norm_num
  have hW : 0 < mouthWidth + t * maxRadius * Real.tan (arcSpan / 2) := by
    have := currentWidth_pos (r := t * maxRadius) (by positivity)
    linarith [this]
  rw [logicalToDisplay_eq]
  unfold displayToLogical
  rw [if_neg (by simpa using hW.ne')]
  have htime : max 0 (min 1 (t * maxRadius / maxRadius)) = t := by
    rw [mul_div_cancel_right₀ _ hrmax.ne']
    rw [min_eq_right ht1, max_eq_right ht0]
  have habs : |(mouthWidth + t * maxRadius * Real.tan (arcSpan / 2)) * (2 * f - 1)| /
      (mouthWidth + t * maxRadius * Real.tan (arcSpan / 2)) = |2 * f - 1| := by
    rw [abs_mul, abs_of_pos hW, mul_comm, mul_div_assoc, div_self hW.ne', mul_one]
  have habs_le : |2 * f - 1| ≤ 1 := abs_le.mpr ⟨by linarith, by linarith⟩
  have hclamp : max 0 (min 1 (|2 * f - 1|)) = |2 * f - 1| := by
    rw [min_eq_right habs_le, max_eq_right (abs_nonneg _)]
  by_cases hf : f < 1/2
  · have hneg : (mouthWidth + t * maxRadius * Real.tan (arcSpan / 2)) * (2 * f - 1) < 0 :=
      mul_neg_of_pos_of_neg hW (by linarith)
    rw [if_pos hneg]
    have habsf : |2 * f - 1| = 1 - 2 * f := by
      rw [abs_of_neg (by linarith)]; ring
    ext
    · show max 0 (min 1 _) = f
      rw [habs, hclamp, habsf]
      have : (1:ℝ)/2 - (1 - 2 * f) * (1/2) = f := by ring
      rw [this, min_eq_right hf1, max_eq_right hf0]
    · exact htime
  · have hpos : ¬ ((mouthWidth + t * maxRadius * Real.tan (arcSpan / 2)) * (2 * f - 1) < 0) := by
      push_neg
      exact mul_nonneg hW.le (by linarith [not_lt.mp hf])
    rw [if_neg hpos]
    have habsf : |2 * f - 1| = 2 * f - 1 := abs_of_nonneg (by linarith [not_lt.mp hf])
    ext
    · show max 0 (min 1 _) = f
      rw [habs, hclamp, habsf]
      have : (1:ℝ)/2 + (2 * f - 1) * (1/2) = f := by ring
      rw [this, min_eq_right hf1, max_eq_right hf0]
    · exact htime

/-- C1 witness: the round trip at the concrete point `(1/4, 1/2)`. -/
theorem C1_coordinate_roundtrip_witness :
    ((0:ℝ) ≤ 1/4 ∧ (1/4:ℝ) ≤ 1 ∧ (0:ℝ) ≤ 1/2 ∧ (1/2:ℝ) ≤ 1) ∧
      displayToLogical (logicalToDisplay ⟨1/4, 1/2⟩) = ⟨1/4, 1/2⟩ :=
  ⟨by norm_num,
    C1_coordinate_roundtrip (1/4) (1/2) (by norm_num) (by norm_num)
      (by norm_num) (by norm_num)⟩

/-- C5: bilateral mirror symmetry around the centerline: for all `f, t`
(in particular on `[0,1]`), `logicalToDisplay ⟨f, t⟩` and
`logicalToDisplay ⟨1 - f, t⟩` have opposite `x` and equal `z`. -/
theorem C5_bilateral_symmetry (f t : ℝ) :
    (logicalToDisplay ⟨f, t⟩).x = -(logicalToDisplay ⟨1 - f, t⟩).x ∧
      (logicalToDisplay ⟨f, t⟩).z = (logicalToDisplay ⟨1 - f, t⟩).z := by
  refine ⟨?_, rfl⟩
  rw [logicalToDisplay_x, logicalToDisplay_x]
  ring

namespace PolarWaveEngine

/-- The four phonetic types (src/client/src/lib/polarWaveEngine.ts). -/
inductive PhoneticType
  | vowel
  | trill
  | fricative
  | plosive
  deriving DecidableEq

/-- One entry of `phoneticProfiles`.  `modulationRate` is `none` for the
profiles that omit the field (only `trill` carries it). -/
structure PhoneticProfile where
  duration : ℚ
  peakFrequencies : List ℚ
  bandwidth : ℚ
  amplitude : ℚ
  attackTime : ℚ
  sustainLevel : ℚ
  decayTime : ℚ
  modulationRate : Option ℚ

/-- `phoneticProfiles.vowel`. -/
def vowelProfile : PhoneticProfile :=
  ⟨800, [300, 1200, 2500], 200, 8/10, 50, 9/10, 200, none⟩

/-- `phoneticProfiles.trill`. -/
def trillProfile : PhoneticProfile :=
  ⟨600, [1000, 2000], 300, 6/10, 20, 7/10, 100, some 25⟩

/-- `phoneticProfiles.fricative`. -/
def fricativeProfile : PhoneticProfile :=
  ⟨400, [3000, 5000, 7000], 1000, 4/10, 30, 8/10, 150, none⟩

/-- `phoneticProfiles.plosive`. -/
def plosiveProfile : PhoneticProfile :=
  ⟨200, [500, 1500, 4000], 800, 1, 5, 3/10, 50, none⟩

/-- `this.phoneticProfiles[phoneticType]`. -/
def phoneticProfile : PhoneticType → PhoneticProfile
  | .vowel => vowelProfile
  | .trill => trillProfile
  | .fricative => fricativeProfile
  | .plosive => plosiveProfile

/-- `this.frequencyBins = 100`. -/
def frequencyBinsCount : ℕ := 100

/-- `PolarWaveEngine.frequencyToBinIndex`: maps 100 Hz to 8 kHz linearly
across the 100 bins, taking the floor. -/
def frequencyToBinIndex (frequency : ℚ) : ℤ :=
  ⌊(frequency - 100) / (8000 - 100) * ((frequencyBinsCount : ℚ) - 1)⌋

/-- `Math.floor(profile.bandwidth / 80)`: approximate bin width. -/
def bandwidthBins (p : PhoneticProfile) : ℤ := ⌊p.bandwidth / 80⌋

/-- The attack/sustain/decay envelope of `generateSpectrogramFrame`:
`timeIndex / attackTime` during attack, `1 - decayProgress` during the
trailing decay window, `sustainLevel` in between. -/
def envelope (p : PhoneticProfile) (timeIndex : ℕ) : ℚ :=
  if (timeIndex : ℚ) < p.attackTime then
    (timeIndex : ℚ) / p.attackTime
  else if (timeIndex : ℚ) > p.duration - p.decayTime then
    1 - ((timeIndex : ℚ) - (p.duration - p.decayTime)) / p.decayTime
  else
    p.sustainLevel

/-- The envelope after the trill modulation step: multiplied by
`0.7 + 0.3 * sin(normalizedTime * modulationRate * π * 2)` when the type is
`trill` and the profile carries a (truthy, i.e. nonzero) modulation rate. -/
noncomputable def modulatedEnvelope (ty : PhoneticType) (p : PhoneticProfile)
    (timeIndex : ℕ) : ℝ :=
  match ty, p.modulationRate with
  | .trill, some rate =>
      if rate = 0 then (envelope p timeIndex : ℝ)
      else (envelope p timeIndex : ℝ) *
        (7/10 + 3/10 *
          Real.sin (((timeIndex : ℝ) / (p.duration : ℝ)) * (rate : ℝ) * Real.pi * 2))
  | _, _ => (envelope p timeIndex : ℝ)

/-- The amount one peak frequency adds to bin `i`: the loop over
`i ∈ [max 0 (binIndex - bandwidthBins), min 100 (binIndex + bandwidthBins))`
adds `amplitude * envelope * exp(-distance² / (2 * (bw/3) * (bw/3)))`;
for `i : Fin 100` the clipping by `max 0` and `min 100` is implicit. -/
noncomputable def peakContribution (p : PhoneticProfile) (env : ℝ)
    (centerFreq : ℚ) (i : Fin 100) : ℝ :=
  if frequencyToBinIndex centerFreq - bandwidthBins p ≤ (i : ℤ) ∧
      (i : ℤ) < frequencyToBinIndex centerFreq + bandwidthBins p then
    (p.amplitude : ℝ) * env *
      Real.exp (-((|(i : ℤ) - frequencyToBinIndex centerFreq| : ℤ) : ℝ) ^ 2 /
        (2 * ((bandwidthBins p : ℝ) / 3) * ((bandwidthBins p : ℝ) / 3)))
  else 0

/-- The frequency-bin vector of `generateSpectrogramFrame` before
normalization: the accumulated peak contributions, plus for fricatives the
per-bin noise `Math.random() * 0.1 * envelope` (the raw `Math.random()`
draws in `[0,1)` are the `noise` argument). -/
noncomputable def rawFrequencyBins (ty : PhoneticType) (timeIndex : ℕ)
    (p : PhoneticProfile) (noise : Fin 100 → ℝ) (i : Fin 100) : ℝ :=
  (p.peakFrequencies.map
      (fun cf => peakContribution p (modulatedEnvelope ty p timeIndex) cf i)).sum +
    (if ty = .fricative then noise i * (1/10) * modulatedEnvelope ty p timeIndex else 0)

/-- `Math.max(...frequencyBins)`. -/
noncomputable def maxBinValue (ty : PhoneticType) (timeIndex : ℕ)
    (p : PhoneticProfile) (noise : Fin 100 → ℝ) : ℝ :=
  Finset.univ.sup' Finset.univ_nonempty (rawFrequencyBins ty timeIndex p noise)

/-- The normalization step: when the maximum is positive every bin becomes
`max 0 (bin / maxValue)`; otherwise the bins are left untouched. -/
noncomputable def normalizedBins (ty : PhoneticType) (timeIndex : ℕ)
    (p : PhoneticProfile) (noise : Fin 100 → ℝ) (i : Fin 100) : ℝ :=
  if 0 < maxBinValue ty timeIndex p noise then
    max 0 (rawFrequencyBins ty timeIndex p noise i / maxBinValue ty timeIndex p noise)
  else
    rawFrequencyBins ty timeIndex p noise i

/-- `SpectrogramData` (src/client/src/lib/polarField.ts): a time index and
100 frequency bins. -/
structure SpectrogramData where
  timeIndex : ℕ
  frequencyBins : Fin 100 → ℝ

/-- `PolarWaveEngine.generateSpectrogramFrame`. -/
noncomputable def generateSpectrogramFrame (ty : PhoneticType) (timeIndex : ℕ)
    (p : PhoneticProfile) (noise : Fin 100 → ℝ) : SpectrogramData :=
  ⟨timeIndex, normalizedBins ty timeIndex p noise⟩

/-- A `PolarWave`; the id counter value stands in for the id string
`wave-${n}` (two ids are equal iff the counter values are). -/
structure PolarWave where
  id : ℕ
  birthTime : ℚ
  type : PhoneticType
  spectrograms : List SpectrogramData
  currentTimeIndex : ℤ
  maxTimeIndex : ℕ
  isActive : Bool

/-- The engine's mutable state: the active wave list, the simulation clock
and the id counter. -/
structure EngineState where
  waves : List PolarWave
  time : ℚ
  waveId : ℕ

/-- A fresh `PolarWaveEngine`. -/
def initialState : EngineState := ⟨[], 0, 0⟩

/-- `Math.floor(profile.duration)`, the wave's `maxTimeIndex`. -/
def maxTimeIndexFor (ty : PhoneticType) : ℕ :=
  (⌊(phoneticProfile ty).duration⌋).toNat

/-- `PolarWaveEngine.generateWave`: creates a wave with the next id, the
current clock as birth time, frame index 0, and the pre-generated
spectrogram frames for `t = 0, …, maxTimeIndex - 1`. -/
noncomputable def generateWave (s : EngineState) (ty : PhoneticType)
    (noise : ℕ → Fin 100 → ℝ) : EngineState :=
  { waves := s.waves ++ [{
      id := s.waveId,
      birthTime := s.time,
      type := ty,
      spectrograms := (List.range (maxTimeIndexFor ty)).map
        (fun t => generateSpectrogramFrame ty t (phoneticProfile ty) (noise t)),
      currentTimeIndex := 0,
      maxTimeIndex := maxTimeIndexFor ty,
      isActive := true }],
    time := s.time,
    waveId := s.waveId + 1 }

/-- The per-wave body of the `forEach` in `updateTime`: an active wave gets
`newTimeIndex = ⌊(clock - birthTime) * 10⌋`; if that is still below
`maxTimeIndex` the index is stored and the frame at it (when the array
access is defined) is emitted, else the wave is deactivated. -/
def stepWave (time : ℚ) (w : PolarWave) : PolarWave × Option SpectrogramData :=
  if w.isActive then
    if ⌊(time - w.birthTime) * 10⌋ < (w.maxTimeIndex : ℤ) then
      ({ w with currentTimeIndex := ⌊(time - w.birthTime) * 10⌋ },
        if 0 ≤ ⌊(time - w.birthTime) * 10⌋ then
          w.spectrograms[(⌊(time - w.birthTime) * 10⌋).toNat]?
        else none)
    else
      ({ w with isActive := false }, none)
  else (w, none)

/-- `PolarWaveEngine.updateTime`: advances the clock, steps every wave,
collects the surfaced frames, and purges the waves left inactive. -/
def updateTime (s : EngineState) (deltaTime : ℚ) :
    EngineState × List SpectrogramData :=
  ({ waves := ((s.waves.map (stepWave (s.time + deltaTime))).map Prod.fst).filter
        (fun w => w.isActive),
     time := s.time + deltaTime,
     waveId := s.waveId },
   (s.waves.map (stepWave (s.time + deltaTime))).filterMap Prod.snd)

/-- `PolarWaveEngine.getActiveWaveCount`. -/
def getActiveWaveCount (s : EngineState) : ℕ :=
  (s.waves.filter (fun w => w.isActive)).length

/-- `PolarWaveEngine.reset`: clears the waves and resets both the clock and
the id counter to 0. -/
def reset (_s : EngineState) : EngineState := ⟨[], 0, 0⟩

/-- States reachable through the public API from a fresh engine, with the
clock only ever advanced by nonnegative deltas. -/
inductive Reachable : EngineState → Prop
  | base : Reachable initialState
  | genStep {s : EngineState} (ty : PhoneticType) (noise : ℕ → Fin 100 → ℝ) :
      Reachable s → Reachable (generateWave s ty noise)
  | updateStep {s : EngineState} (dt : ℚ) (hdt : 0 ≤ dt) :
      Reachable s → Reachable (updateTime s dt).1
  | resetStep {s : EngineState} : Reachable s → Reachable (reset s)

/-- The spec's reading of the synthesizer envelope, parameterized by the
value `decayStart` at which the trailing linear decay ramp begins: ramp
`0 → 1` during the attack window, constant `sustainLevel` in the middle,
linear ramp `decayStart → 0` during the trailing decay window.  The spec
words use `decayStart = sustainLevel`. -/
def specEnvelope (decayStart : ℚ) (p : PhoneticProfile) (timeIndex : ℕ) : ℚ :=
  if (timeIndex : ℚ) < p.attackTime then
    (timeIndex : ℚ) / p.attackTime
  else if (timeIndex : ℚ) > p.duration - p.decayTime then
    decayStart * (1 - ((timeIndex : ℚ) - (p.duration - p.decayTime)) / p.decayTime)
  else
    p.sustainLevel

/-- For the non-trill types the modulation step leaves the envelope as is. -/
lemma modulatedEnvelope_vowel (p : PhoneticProfile) (t : ℕ) :
    modulatedEnvelope .vowel p t = (envelope p t : ℝ) := rfl

/-- The fricative profile carries no modulation rate. -/
lemma modulatedEnvelope_fricative (p : PhoneticProfile) (t : ℕ) :
    modulatedEnvelope .fricative p t = (envelope p t : ℝ) := rfl

/-- The plosive profile carries no modulation rate. -/
lemma modulatedEnvelope_plosive (p : PhoneticProfile) (t : ℕ) :
    modulatedEnvelope .plosive p t = (envelope p t : ℝ) := rfl

/-- Within the generated frame range the envelope is nonnegative. -/
lemma envelope_nonneg {p : PhoneticProfile} {t : ℕ}
    (hA : 0 < p.attackTime) (hD : 0 < p.decayTime) (hS : 0 ≤ p.sustainLevel)
    (ht : (t : ℚ) < p.duration) : 0 ≤ envelope p t := by
  unfold envelope
  split_ifs with h1 h2
  · exact div_nonneg (Nat.cast_nonneg t) hA.le
  · have hle : (t : ℚ) - (p.duration - p.decayTime) ≤ p.decayTime := by linarith
    have := (div_le_one hD).mpr hle
    linarith
  · exact hS

/-- The trill modulation factor keeps a nonnegative envelope nonnegative. -/
lemma modulatedEnvelope_nonneg (ty : PhoneticType) (p : PhoneticProfile) (t : ℕ)
    (h : 0 ≤ envelope p t) : 0 ≤ modulatedEnvelope ty p t := by
  have hcast : (0:ℝ) ≤ (envelope p t : ℝ) := by exact_mod_cast h
  cases ty with
  | trill =>
      unfold modulatedEnvelope
      cases hm : p.modulationRate with
      | none => simpa using hcast
      | some rate =>
          by_cases hr : rate = 0
          · simpa [hr] using hcast
          · have hsin := Real.neg_one_le_sin
              (((t : ℝ) / (p.duration : ℝ)) * (rate : ℝ) * Real.pi * 2)
            have hfac : (0:ℝ) ≤ 7/10 + 3/10 *
                Real.sin (((t : ℝ) / (p.duration : ℝ)) * (rate : ℝ) * Real.pi * 2) := by
              linarith
            simpa [hr] using mul_nonneg hcast hfac
  | vowel => simpa [modulatedEnvelope_vowel] using hcast
  | fricative => simpa [modulatedEnvelope_fricative] using hcast
  | plosive => simpa [modulatedEnvelope_plosive] using hcast

/-- A peak contribution with nonnegative amplitude and envelope is
nonnegative. -/
lemma peakContribution_nonneg {p : PhoneticProfile} {env : ℝ} {cf : ℚ}
    {i : Fin 100} (hamp : 0 ≤ p.amplitude) (henv : 0 ≤ env) :
    0 ≤ peakContribution p env cf i := by
  unfold peakContribution
  split_ifs
  · have hamp' : (0:ℝ) ≤ (p.amplitude : ℝ) := by exact_mod_cast hamp
    exact mul_nonneg (mul_nonneg hamp' henv) (Real.exp_pos _).le
  · exact le_refl 0

/-- A peak contribution with nonpositive envelope is nonpositive. -/
lemma peakContribution_nonpos {p : PhoneticProfile} {env : ℝ} {cf : ℚ}
    {i : Fin 100} (hamp : 0 ≤ p.amplitude) (henv : env ≤ 0) :
    peakContribution p env cf i ≤ 0 := by
  unfold peakContribution
  split_ifs
  · have hamp' : (0:ℝ) ≤ (p.amplitude : ℝ) := by exact_mod_cast hamp
    have h1 : (p.amplitude : ℝ) * env ≤ 0 := mul_nonpos_of_nonneg_of_nonpos hamp' henv
    exact mul_nonpos_of_nonpos_of_nonneg h1 (Real.exp_pos _).le
  · exact le_refl 0

/-- With nonnegative amplitude, envelope and noise draws, every
pre-normalization bin is nonnegative. -/
lemma rawFrequencyBins_nonneg {ty : PhoneticType} {t : ℕ} {p : PhoneticProfile}
    {noise : Fin 100 → ℝ} (hamp : 0 ≤ p.amplitude)
    (henv : 0 ≤ modulatedEnvelope ty p t) (hn : ∀ i, 0 ≤ noise i) (i : Fin 100) :
    0 ≤ rawFrequencyBins ty t p noise i := by
  unfold rawFrequencyBins
  have h1 : 0 ≤ (p.peakFrequencies.map
      (fun cf => peakContribution p (modulatedEnvelope ty p t) cf i)).sum := by
    apply List.sum_nonneg
    intro x hx
    obtain ⟨cf, _, rfl⟩ := List.mem_map.mp hx
    exact peakContribution_nonneg hamp henv
  have h2 : 0 ≤ (if ty = .fricative then
      noise i * (1/10) * modulatedEnvelope ty p t else 0) := by
    split_ifs
    · exact mul_nonneg (mul_nonneg (hn i) (by norm_num)) henv
    · exact le_refl 0
  linarith

/-- Every raw bin is bounded by the frame maximum. -/
lemma le_maxBinValue (ty : PhoneticType) (t : ℕ) (p : PhoneticProfile)
    (noise : Fin 100 → ℝ) (i : Fin 100) :
    rawFrequencyBins ty t p noise i ≤ maxBinValue ty t p noise :=
  Finset.le_sup' _ (Finset.mem_univ i)

/-- The frame maximum is attained at some bin. -/
lemma exists_maxBin (ty : PhoneticType) (t : ℕ) (p : PhoneticProfile)
    (noise : Fin 100 → ℝ) :
    ∃ i : Fin 100, maxBinValue ty t p noise = rawFrequencyBins ty t p noise i := by
  obtain ⟨i, _, h⟩ := Finset.exists_mem_eq_sup' Finset.univ_nonempty
    (rawFrequencyBins ty t p noise)
  exact ⟨i, h⟩

/-- If every raw bin is below a bound attained at `i0`, the frame maximum
equals the raw value at `i0`. -/
lemma maxBinValue_eq_of_peak {ty : PhoneticType} {t : ℕ} {p : PhoneticProfile}
    {noise : Fin 100 → ℝ} {i0 : Fin 100}
    (hub : ∀ i, rawFrequencyBins ty t p noise i ≤ rawFrequencyBins ty t p noise i0) :
    maxBinValue ty t p noise = rawFrequencyBins ty t p noise i0 :=
  le_antisymm (Finset.sup'_le _ _ fun i _ => hub i) (le_maxBinValue ty t p noise i0)

/-- A peak contribution inside the window, in closed form. -/
lemma peakContribution_eval_in {p : PhoneticProfile} {env : ℝ} {cf : ℚ}
    {i : Fin 100} {b bw : ℤ} (hb : frequencyToBinIndex cf = b)
    (hbw : bandwidthBins p = bw)
    (hin : b - bw ≤ (i : ℤ) ∧ (i : ℤ) < b + bw) :
    peakContribution p env cf i = (p.amplitude : ℝ) * env *
      Real.exp (-((|(i : ℤ) - b| : ℤ) : ℝ) ^ 2 /
        (2 * ((bw : ℝ) / 3) * ((bw : ℝ) / 3))) := by
  unfold peakContribution
  rw [hb, hbw, if_pos hin]

/-- A peak contribution outside the window vanishes. -/
lemma peakContribution_eval_out {p : PhoneticProfile} {env : ℝ} {cf : ℚ}
    {i : Fin 100} {b bw : ℤ} (hb : frequencyToBinIndex cf = b)
    (hbw : bandwidthBins p = bw)
    (hout : ¬ (b - bw ≤ (i : ℤ) ∧ (i : ℤ) < b + bw)) :
    peakContribution p env cf i = 0 := by
  unfold peakContribution
  rw [hb, hbw, if_neg hout]

/-- At the center bin the Gaussian factor is `exp 0 = 1`. -/
lemma peakContribution_center {p : PhoneticProfile} {env : ℝ} {cf : ℚ}
    {i : Fin 100} (hb : frequencyToBinIndex cf = (i : ℤ))
    (hbwpos : 0 < bandwidthBins p) :
    peakContribution p env cf i = (p.amplitude : ℝ) * env := by
  rw [peakContribution_eval_in hb rfl ⟨by omega, by omega⟩]
  simp

/-- Every peak contribution is at most `amplitude * envelope` when both are
nonnegative, because the Gaussian factor is at most 1. -/
lemma peakContribution_le {p : PhoneticProfile} {env : ℝ} {cf : ℚ}
    {i : Fin 100} (hamp : 0 ≤ p.amplitude) (henv : 0 ≤ env) :
    peakContribution p env cf i ≤ (p.amplitude : ℝ) * env := by
  have hamp' : (0:ℝ) ≤ (p.amplitude : ℝ) := by exact_mod_cast hamp
  unfold peakContribution
  split_ifs
  · have hexp : Real.exp (-((|(i : ℤ) - frequencyToBinIndex cf| : ℤ) : ℝ) ^ 2 /
        (2 * ((bandwidthBins p : ℝ) / 3) * ((bandwidthBins p : ℝ) / 3))) ≤ 1 := by
      apply Real.exp_le_one_iff.mpr
      apply div_nonpos_of_nonpos_of_nonneg
      · simp [neg_nonpos, sq_nonneg]
      · nlinarith [sq_nonneg ((bandwidthBins p : ℝ) / 3)]
    calc (p.amplitude : ℝ) * env * Real.exp _ ≤ (p.amplitude : ℝ) * env * 1 :=
          mul_le_mul_of_nonneg_left hexp (mul_nonneg hamp' henv)
    _ = (p.amplitude : ℝ) * env := mul_one _
  · exact mul_nonneg hamp' henv

/-- Profile sanity facts used throughout: positive attack and decay windows,
nonnegative sustain level and amplitude. -/
lemma profile_valid (ty : PhoneticType) :
    0 < (phoneticProfile ty).attackTime ∧ 0 < (phoneticProfile ty).decayTime ∧
      0 ≤ (phoneticProfile ty).sustainLevel ∧ 0 ≤ (phoneticProfile ty).amplitude := by
  cases ty <;>
    norm_num [phoneticProfile, vowelProfile, trillProfile, fricativeProfile,
      plosiveProfile]

/-- The vowel wave spans 800 frames. -/
lemma maxTimeIndexFor_vowel : maxTimeIndexFor PhoneticType.vowel = 800 := by
  unfold maxTimeIndexFor
  have h : ⌊(phoneticProfile .vowel).duration⌋ = (800:ℤ) := by
    norm_num [phoneticProfile, vowelProfile]
  rw [h]
  rfl

/-- The trill wave spans 600 frames. -/
lemma maxTimeIndexFor_trill : maxTimeIndexFor PhoneticType.trill = 600 := by
  unfold maxTimeIndexFor
  have h : ⌊(phoneticProfile .trill).duration⌋ = (600:ℤ) := by
    norm_num [phoneticProfile, trillProfile]
  rw [h]
  rfl

/-- The fricative wave spans 400 frames. -/
lemma maxTimeIndexFor_fricative : maxTimeIndexFor PhoneticType.fricative = 400 := by
  unfold maxTimeIndexFor
  have h : ⌊(phoneticProfile .fricative).duration⌋ = (400:ℤ) := by
    norm_num [phoneticProfile, fricativeProfile]
  rw [h]
  rfl

/-- The plosive wave spans 200 frames. -/
lemma maxTimeIndexFor_plosive : maxTimeIndexFor PhoneticType.plosive = 200 := by
  unfold maxTimeIndexFor
  have h : ⌊(phoneticProfile .plosive).duration⌋ = (200:ℤ) := by
    norm_num [phoneticProfile, plosiveProfile]
  rw [h]
  rfl

/-- `maxTimeIndexFor` casts back to the profile duration (the durations are
whole numbers). -/
lemma maxTimeIndexFor_cast (ty : PhoneticType) :
    ((maxTimeIndexFor ty : ℚ)) = (phoneticProfile ty).duration := by
  cases ty
  · rw [maxTimeIndexFor_vowel]; norm_num [phoneticProfile, vowelProfile]
  · rw [maxTimeIndexFor_trill]; norm_num [phoneticProfile, trillProfile]
  · rw [maxTimeIndexFor_fricative]; norm_num [phoneticProfile, fricativeProfile]
  · rw [maxTimeIndexFor_plosive]; norm_num [phoneticProfile, plosiveProfile]

/-- C3 counterexample: at `timeIndex = 601` (one step into the vowel's
decay window) the code's envelope is `199/200`, while a decay ramp starting
at `sustainLevel` would give `(9/10) * (199/200)`: the claimed piecewise
function does not match the code. -/
theorem C3_envelope_counterexample :
    envelope vowelProfile 601 ≠
      specEnvelope vowelProfile.sustainLevel vowelProfile 601 := by
  norm_num [envelope, specEnvelope, vowelProfile]

/-- C3 (amended): the synthesizer envelope is exactly the piecewise
function of `timeIndex` relative to `profile.duration` that ramps `0 → 1`
during the attack window, holds `sustainLevel` during the middle, and ramps
linearly from `1` (not from `sustainLevel`) down to `0` during the trailing
decay window. -/
theorem C3_envelope_piecewise (p : PhoneticProfile) (t : ℕ) :
    envelope p t = specEnvelope 1 p t := by
  unfold envelope specEnvelope
  split_ifs <;> ring

/-- C2 (amended): for every phonetic type, the table profile, and every
`timeIndex` in the generated range `[0, maxTimeIndex)`, with the
`Math.random()` draws nonnegative: all output bins lie in `[0,1]`; when
some bin is positive before normalization at least one output bin equals
exactly 1; and when all bins are zero the output is all-zero. -/
theorem C2_frame_normalization (ty : PhoneticType) (t : ℕ) (noise : Fin 100 → ℝ)
    (ht : t < maxTimeIndexFor ty) (hn : ∀ i, 0 ≤ noise i) :
    (∀ i, 0 ≤ (generateSpectrogramFrame ty t (phoneticProfile ty) noise).frequencyBins i ∧
        (generateSpectrogramFrame ty t (phoneticProfile ty) noise).frequencyBins i ≤ 1) ∧
      ((∃ j, 0 < rawFrequencyBins ty t (phoneticProfile ty) noise j) →
        ∃ i, (generateSpectrogramFrame ty t (phoneticProfile ty) noise).frequencyBins i = 1) ∧
      ((∀ j, rawFrequencyBins ty t (phoneticProfile ty) noise j = 0) →
        ∀ i, (generateSpectrogramFrame ty t (phoneticProfile ty) noise).frequencyBins i = 0) := by
  obtain ⟨hA, hD, hS, hamp⟩ := profile_valid ty
  have htQ : (t : ℚ) < (phoneticProfile ty).duration := by
    rw [← maxTimeIndexFor_cast ty]
    exact_mod_cast ht
  have henv := modulatedEnvelope_nonneg ty (phoneticProfile ty) t
    (envelope_nonneg hA hD hS htQ)
  have h0 : ∀ i, 0 ≤ rawFrequencyBins ty t (phoneticProfile ty) noise i :=
    rawFrequencyBins_nonneg hamp henv hn
  have hframe : (generateSpectrogramFrame ty t (phoneticProfile ty) noise).frequencyBins =
      normalizedBins ty t (phoneticProfile ty) noise := rfl
  refine ⟨?_, ?_, ?_⟩
  · intro i
    rw [hframe]
    unfold normalizedBins
    split_ifs with hM
    · constructor
      · exact le_max_left 0 _
      · apply max_le (by norm_num)
        exact (div_le_one hM).mpr (le_maxBinValue ty t _ noise i)
    · have hle := le_maxBinValue ty t (phoneticProfile ty) noise i
      have : rawFrequencyBins ty t (phoneticProfile ty) noise i = 0 :=
        le_antisymm (by push_neg at hM; linarith) (h0 i)
      rw [this]
      norm_num
  · rintro ⟨j, hj⟩
    have hM : 0 < maxBinValue ty t (phoneticProfile ty) noise :=
      lt_of_lt_of_le hj (le_maxBinValue ty t _ noise j)
    obtain ⟨i0, hi0⟩ := exists_maxBin ty t (phoneticProfile ty) noise
    refine ⟨i0, ?_⟩
    rw [hframe]
    unfold normalizedBins
    rw [if_pos hM, ← hi0, div_self hM.ne']
    norm_num
  · intro hz i
    have hMz : maxBinValue ty t (phoneticProfile ty) noise = 0 := by
      obtain ⟨i0, hi0⟩ := exists_maxBin ty t (phoneticProfile ty) noise
      rw [hi0, hz i0]
    rw [hframe]
    unfold normalizedBins
    rw [if_neg (by rw [hMz]; exact lt_irrefl 0), hz i]

/-- C2 witness: the vowel profile at `timeIndex = 100` with zero noise. -/
theorem C2_frame_normalization_witness :
    (100 < maxTimeIndexFor .vowel) ∧
      (∀ i, 0 ≤ (generateSpectrogramFrame .vowel 100 (phoneticProfile .vowel)
            (fun _ => 0)).frequencyBins i ∧
          (generateSpectrogramFrame .vowel 100 (phoneticProfile .vowel)
            (fun _ => 0)).frequencyBins i ≤ 1) :=
  ⟨by rw [maxTimeIndexFor_vowel]; norm_num,
    (C2_frame_normalization .vowel 100 (fun _ => 0)
      (by rw [maxTimeIndexFor_vowel]; norm_num)
      (fun _ => le_refl 0)).1⟩

/-- 300 Hz falls in bin 2. -/
lemma binIndex_300 : frequencyToBinIndex 300 = 2 := by
  norm_num [frequencyToBinIndex, frequencyBinsCount, Int.floor_eq_iff]

/-- 1200 Hz falls in bin 13. -/
lemma binIndex_1200 : frequencyToBinIndex 1200 = 13 := by
  norm_num [frequencyToBinIndex, frequencyBinsCount, Int.floor_eq_iff]

/-- 2500 Hz falls in bin 30. -/
lemma binIndex_2500 : frequencyToBinIndex 2500 = 30 := by
  norm_num [frequencyToBinIndex, frequencyBinsCount, Int.floor_eq_iff]

/-- 3000 Hz falls in bin 36. -/
lemma binIndex_3000 : frequencyToBinIndex 3000 = 36 := by
  norm_num [frequencyToBinIndex, frequencyBinsCount, Int.floor_eq_iff]

/-- 5000 Hz falls in bin 61. -/
lemma binIndex_5000 : frequencyToBinIndex 5000 = 61 := by
  norm_num [frequencyToBinIndex, frequencyBinsCount, Int.floor_eq_iff]

/-- 7000 Hz falls in bin 86. -/
lemma binIndex_7000 : frequencyToBinIndex 7000 = 86 := by
  norm_num [frequencyToBinIndex, frequencyBinsCount, Int.floor_eq_iff]

/-- The vowel bandwidth of 200 Hz spans 2 bins. -/
lemma bandwidthBins_vowel : bandwidthBins vowelProfile = 2 := by
  norm_num [bandwidthBins, vowelProfile, Int.floor_eq_iff]

/-- The fricative bandwidth of 1000 Hz spans 12 bins. -/
lemma bandwidthBins_fricative : bandwidthBins fricativeProfile = 12 := by
  norm_num [bandwidthBins, fricativeProfile, Int.floor_eq_iff]

/-- The raw vowel bins are the three formant contributions (no noise). -/
lemma rawFrequencyBins_vowel (t : ℕ) (noise : Fin 100 → ℝ) (i : Fin 100) :
    rawFrequencyBins .vowel t vowelProfile noise i =
      peakContribution vowelProfile ((envelope vowelProfile t : ℚ) : ℝ) 300 i +
        peakContribution vowelProfile ((envelope vowelProfile t : ℚ) : ℝ) 1200 i +
        peakContribution vowelProfile ((envelope vowelProfile t : ℚ) : ℝ) 2500 i := by
  unfold rawFrequencyBins
  rw [modulatedEnvelope_vowel]
  show (List.map _ vowelProfile.peakFrequencies).sum + _ = _
  rw [show vowelProfile.peakFrequencies = [300, 1200, 2500] from rfl]
  simp
  ring

/-- The vowel envelope at `timeIndex = 1000`, past the wave duration,
is `-1`. -/
lemma envelope_vowel_1000 : envelope vowelProfile 1000 = -1 := by
  norm_num [envelope, vowelProfile]

/-- C2 counterexample: the claim quantifies over every `timeIndex`, but at
`timeIndex = 1000` (past the vowel duration of 800) the envelope is `-1`,
every bin is nonpositive, normalization is skipped, and the returned bin 2
is `-4/5`, outside `[0,1]`. -/
theorem C2_counterexample :
    (generateSpectrogramFrame .vowel 1000 vowelProfile (fun _ => 0)).frequencyBins
      ⟨2, by norm_num⟩ < 0 := by
  have henvR : ((envelope vowelProfile 1000 : ℚ) : ℝ) = -1 := by
    rw [envelope_vowel_1000]; norm_num
  have hraw : ∀ i : Fin 100,
      rawFrequencyBins .vowel 1000 vowelProfile (fun _ => 0) i ≤ 0 := by
    intro i
    rw [rawFrequencyBins_vowel]
    have hamp : 0 ≤ vowelProfile.amplitude := by norm_num [vowelProfile]
    have henv : ((envelope vowelProfile 1000 : ℚ) : ℝ) ≤ 0 := by rw [henvR]; norm_num
    have h1 : peakContribution vowelProfile ((envelope vowelProfile 1000 : ℚ) : ℝ)
        300 i ≤ 0 := peakContribution_nonpos hamp henv
    have h2 : peakContribution vowelProfile ((envelope vowelProfile 1000 : ℚ) : ℝ)
        1200 i ≤ 0 := peakContribution_nonpos hamp henv
    have h3 : peakContribution vowelProfile ((envelope vowelProfile 1000 : ℚ) : ℝ)
        2500 i ≤ 0 := peakContribution_nonpos hamp henv
    linarith
  have hzero : rawFrequencyBins .vowel 1000 vowelProfile (fun _ => 0)
      ⟨50, by norm_num⟩ = 0 := by
    rw [rawFrequencyBins_vowel]
    rw [peakContribution_eval_out binIndex_300 bandwidthBins_vowel (by decide)]
    rw [peakContribution_eval_out binIndex_1200 bandwidthBins_vowel (by decide)]
    rw [peakContribution_eval_out binIndex_2500 bandwidthBins_vowel (by decide)]
    norm_num
  have hmax : maxBinValue .vowel 1000 vowelProfile (fun _ => 0) = 0 := by
    apply le_antisymm
    · exact Finset.sup'_le _ _ fun i _ => hraw i
    · rw [← hzero]
      exact le_maxBinValue .vowel 1000 vowelProfile (fun _ => 0) ⟨50, by norm_num⟩
  have hbin2 : rawFrequencyBins .vowel 1000 vowelProfile (fun _ => 0)
      ⟨2, by norm_num⟩ = -(4/5) := by
    rw [rawFrequencyBins_vowel]
    rw [peakContribution_center (by rw [binIndex_300]; rfl)
      (by rw [bandwidthBins_vowel]; norm_num)]
    rw [peakContribution_eval_out binIndex_1200 bandwidthBins_vowel (by decide)]
    rw [peakContribution_eval_out binIndex_2500 bandwidthBins_vowel (by decide)]
    rw [henvR]
    norm_num [vowelProfile]
  show normalizedBins .vowel 1000 vowelProfile (fun _ => 0) ⟨2, by norm_num⟩ < 0
  unfold normalizedBins
  rw [hmax, if_neg (lt_irrefl 0), hbin2]
  norm_num

/-- Unfolding `generateWave` on the wave list. -/
lemma generateWave_waves (s : EngineState) (ty : PhoneticType)
    (noise : ℕ → Fin 100 → ℝ) :
    (generateWave s ty noise).waves = s.waves ++ [{
      id := s.waveId,
      birthTime := s.time,
      type := ty,
      spectrograms := (List.range (maxTimeIndexFor ty)).map
        (fun t => generateSpectrogramFrame ty t (phoneticProfile ty) (noise t)),
      currentTimeIndex := 0,
      maxTimeIndex := maxTimeIndexFor ty,
      isActive := true }] := rfl

/-- Every phonetic type spans a positive number of frames. -/
lemma maxTimeIndexFor_pos (ty : PhoneticType) : 0 < maxTimeIndexFor ty := by
  cases ty <;>
    simp [maxTimeIndexFor_vowel, maxTimeIndexFor_trill, maxTimeIndexFor_fricative,
      maxTimeIndexFor_plosive]

/-- The per-wave update step never changes the wave id. -/
lemma stepWave_id (time : ℚ) (w : PolarWave) : (stepWave time w).1.id = w.id := by
  unfold stepWave
  split_ifs <;> rfl

/-- The two possible outcomes of the update step on an active wave: either
the new frame index is still below `maxTimeIndex` and is stored, or the
wave is flagged inactive. -/
lemma stepWave_cases (time : ℚ) (w : PolarWave) (hact : w.isActive = true) :
    (⌊(time - w.birthTime) * 10⌋ < (w.maxTimeIndex : ℤ) ∧
        (stepWave time w).1 =
          { w with currentTimeIndex := ⌊(time - w.birthTime) * 10⌋ }) ∨
      ((w.maxTimeIndex : ℤ) ≤ ⌊(time - w.birthTime) * 10⌋ ∧
        (stepWave time w).1 = { w with isActive := false }) := by
  unfold stepWave
  rw [if_pos hact]
  by_cases hidx : ⌊(time - w.birthTime) * 10⌋ < (w.maxTimeIndex : ℤ)
  · exact Or.inl ⟨hidx, by rw [if_pos hidx]⟩
  · exact Or.inr ⟨not_lt.mp hidx, by rw [if_neg hidx]⟩

/-- The noise source used by the concrete scenarios: all draws zero. -/
noncomputable def sampleNoise : ℕ → Fin 100 → ℝ := fun _ _ => 0

/-- A fresh engine after one `generateWave('vowel')`. -/
noncomputable def sampleVowelState : EngineState :=
  generateWave initialState .vowel sampleNoise

/-- The single wave stored in `sampleVowelState`. -/
noncomputable def sampleVowelWave : PolarWave :=
  { id := 0,
    birthTime := 0,
    type := .vowel,
    spectrograms := (List.range (maxTimeIndexFor .vowel)).map
      (fun t => generateSpectrogramFrame .vowel t (phoneticProfile .vowel)
        (sampleNoise t)),
    currentTimeIndex := 0,
    maxTimeIndex := maxTimeIndexFor .vowel,
    isActive := true }

/-- `sampleVowelState` holds exactly `sampleVowelWave`. -/
lemma sampleVowelState_waves : sampleVowelState.waves = [sampleVowelWave] := rfl

/-- The engine invariant: every stored wave is still active with its frame
index in range, was born no later than the clock, and carries an id below
the counter; the stored ids are pairwise distinct. -/
def WaveInvariant (s : EngineState) : Prop :=
  (∀ w ∈ s.waves, w.isActive = true ∧ 0 ≤ w.currentTimeIndex ∧
      w.currentTimeIndex < (w.maxTimeIndex : ℤ) ∧ w.birthTime ≤ s.time ∧
      w.id < s.waveId) ∧
  (s.waves.map (fun w => w.id)).Nodup

/-- The engine invariant holds in every reachable state. -/
lemma reachable_invariant {s : EngineState} (h : Reachable s) : WaveInvariant s := by
  induction h with
  | base => exact ⟨by simp [initialState], by simp [initialState]⟩
  | genStep ty noise hr ih =>
      obtain ⟨ih1, ih2⟩ := ih
      constructor
      · intro w hw
        rw [generateWave_waves] at hw
        rcases List.mem_append.mp hw with hw' | hw'
        · obtain ⟨a1, a2, a3, a4, a5⟩ := ih1 w hw'
          exact ⟨a1, a2, a3, a4, Nat.lt_succ_of_lt a5⟩
        · rw [List.mem_singleton] at hw'
          subst hw'
          refine ⟨rfl, le_refl 0, ?_, le_refl _, Nat.lt_succ_self _⟩
          show (0:ℤ) < ((maxTimeIndexFor ty : ℕ) : ℤ)
          exact_mod_cast maxTimeIndexFor_pos ty
      · rw [generateWave_waves, List.map_append]
        apply List.Nodup.append ih2 (List.nodup_singleton _)
        intro a ha hb
        simp only [List.map_singleton, List.mem_singleton] at hb
        obtain ⟨w, hw, rfl⟩ := List.mem_map.mp ha
        have hlt := (ih1 w hw).2.2.2.2
        omega
  | updateStep dt hdt hr ih =>
      obtain ⟨ih1, ih2⟩ := ih
      rename_i s'
      constructor
      · intro w' hw'
        obtain ⟨hmem, hfil⟩ := List.mem_filter.mp hw'
        obtain ⟨pair, hpair, hfst⟩ := List.mem_map.mp hmem
        obtain ⟨w, hw, hstep⟩ := List.mem_map.mp hpair
        obtain ⟨a1, a2, a3, a4, a5⟩ := ih1 w hw
        rcases stepWave_cases (s'.time + dt) w a1 with ⟨hidx, heq⟩ | ⟨hidx, heq⟩
        · have hw'eq : w' = { w with currentTimeIndex :=
              ⌊(s'.time + dt - w.birthTime) * 10⌋ } := by
            rw [← hfst, ← hstep, heq]
          subst hw'eq
          refine ⟨a1, ?_, hidx, ?_, a5⟩
          · apply Int.floor_nonneg.mpr
            have : 0 ≤ s'.time + dt - w.birthTime := by linarith
            linarith
          · show w.birthTime ≤ s'.time + dt
            linarith
        · have hw'eq : w' = { w with isActive := false } := by
            rw [← hfst, ← hstep, heq]
          rw [hw'eq] at hfil
          simp at hfil
      · have hids : (((s'.waves.map (stepWave (s'.time + dt))).map Prod.fst).map
            (fun w => w.id)) = s'.waves.map (fun w => w.id) := by
          rw [List.map_map, List.map_map]
          exact List.map_congr_left fun w _ => stepWave_id (s'.time + dt) w
        have hsub : ((((s'.waves.map (stepWave (s'.time + dt))).map Prod.fst).filter
              (fun w => w.isActive)).map (fun w => w.id)).Sublist
            (s'.waves.map (fun w => w.id)) := by
          rw [← hids]
          exact (List.filter_sublist _).map _
        exact ih2.sublist hsub
  | resetStep hr _ => exact ⟨by simp [reset], by simp [reset]⟩

/-- C8: in every reachable engine state, every stored wave satisfies
`0 ≤ currentTimeIndex ≤ maxTimeIndex` and is still active — an inactive
wave is never stored, because the `updateTime` call that retires a wave
also purges it, so a retired wave can never be reactivated. -/
theorem C8_lifecycle_invariant (s : EngineState) (h : Reachable s) :
    ∀ w ∈ s.waves, w.isActive = true ∧
      0 ≤ w.currentTimeIndex ∧ w.currentTimeIndex ≤ (w.maxTimeIndex : ℤ) := by
  intro w hw
  obtain ⟨a1, a2, a3, _, _⟩ := (reachable_invariant h).1 w hw
  exact ⟨a1, a2, le_of_lt a3⟩

/-- C8 witness: the invariant instantiated at the concrete wave stored in
the reachable state reached by one `generateWave('vowel')`. -/
theorem C8_lifecycle_invariant_witness :
    sampleVowelWave.isActive = true ∧
      0 ≤ sampleVowelWave.currentTimeIndex ∧
      sampleVowelWave.currentTimeIndex ≤ (sampleVowelWave.maxTimeIndex : ℤ) :=
  C8_lifecycle_invariant sampleVowelState
    (Reachable.genStep .vowel sampleNoise Reachable.base) sampleVowelWave
    (by rw [sampleVowelState_waves]; exact List.mem_singleton.mpr rfl)

/-- C4 (amended): between two resets ids are indeed fresh: in any reachable
state the stored ids are pairwise distinct, and the wave appended by the
next `generateWave` receives an id different from every stored id.  But
`reset()` also restarts the id counter, so ids issued before a reset are
reused after it (see the counterexample). -/
theorem C4_fresh_id (s : EngineState) (h : Reachable s) (ty : PhoneticType)
    (noise : ℕ → Fin 100 → ℝ) :
    (((generateWave s ty noise).waves).map (fun w => w.id)).Nodup := by
  have hinv := reachable_invariant h
  rw [generateWave_waves, List.map_append]
  apply List.Nodup.append hinv.2 (List.nodup_singleton _)
  intro a ha hb
  simp only [List.map_singleton, List.mem_singleton] at hb
  obtain ⟨w, hw, rfl⟩ := List.mem_map.mp ha
  have hlt := (hinv.1 w hw).2.2.2.2
  omega

/-- C4 witness: distinct ids after generating a vowel then a trill wave. -/
theorem C4_fresh_id_witness :
    (((generateWave (generateWave initialState .vowel (fun _ _ => 0)) .trill
        (fun _ _ => 0)).waves).map (fun w => w.id)).Nodup :=
  C4_fresh_id _ (Reachable.genStep _ _ Reachable.base) .trill _

/-- C4 counterexample: generate three waves (ids 0, 1, 2), reset, generate
a vowel: the new wave's id is 0 again — equal to an id issued before the
reset, because `reset()` also restarts the id counter.  The claimed
distinctness from every pre-reset id is false. -/
theorem C4_counterexample :
    getActiveWaveCount (reset (generateWave (generateWave (generateWave
        initialState .vowel (fun _ _ => 0)) .trill (fun _ _ => 0)) .fricative
        (fun _ _ => 0))) = 0 ∧
      ((generateWave (reset (generateWave (generateWave (generateWave
          initialState .vowel (fun _ _ => 0)) .trill (fun _ _ => 0)) .fricative
          (fun _ _ => 0))) .vowel (fun _ _ => 0)).waves).map (fun w => w.id) = [0] ∧
      ((generateWave (generateWave (generateWave initialState .vowel
          (fun _ _ => 0)) .trill (fun _ _ => 0)) .fricative
          (fun _ _ => 0)).waves).map (fun w => w.id) = [0, 1, 2] :=
  ⟨rfl, rfl, rfl⟩

/-- An active wave whose recomputed frame index reaches `maxTimeIndex` is
flagged inactive and emits no frame. -/
lemma stepWave_expired {time : ℚ} {w : PolarWave} (hact : w.isActive = true)
    (hge : (w.maxTimeIndex : ℤ) ≤ ⌊(time - w.birthTime) * 10⌋) :
    stepWave time w = ({ w with isActive := false }, none) := by
  unfold stepWave
  rw [if_pos hact, if_neg (not_lt.mpr hge)]

/-- An active wave whose recomputed frame index is still below
`maxTimeIndex` stores it and emits the frame at it. -/
lemma stepWave_alive {time : ℚ} {w : PolarWave} (hact : w.isActive = true)
    (hlt : ⌊(time - w.birthTime) * 10⌋ < (w.maxTimeIndex : ℤ)) :
    stepWave time w = ({ w with currentTimeIndex := ⌊(time - w.birthTime) * 10⌋ },
      if 0 ≤ ⌊(time - w.birthTime) * 10⌋ then
        w.spectrograms[(⌊(time - w.birthTime) * 10⌋).toNat]?
      else none) := by
  unfold stepWave
  rw [if_pos hact, if_pos hlt]

/-- C6 (amended): on `updateTime(deltaTime)` every active wave gets
`currentTimeIndex = ⌊(clock - birthTime) * 10⌋` (frame rate 10); the wave
survives, with its frame included in the returned set, exactly when the new
index is strictly below `maxTimeIndex`; when the new index is greater than
or *equal to* `maxTimeIndex` the wave is expired (frames are indexed
`0 … maxTimeIndex - 1`), emits nothing, and the updated state stores only
still-active waves. -/
theorem C6_update_expiry_boundary (s : EngineState) (dt : ℚ) (w : PolarWave)
    (hw : w ∈ s.waves) (hact : w.isActive = true) :
    (⌊(s.time + dt - w.birthTime) * 10⌋ < (w.maxTimeIndex : ℤ) →
      ({ w with currentTimeIndex := ⌊(s.time + dt - w.birthTime) * 10⌋ } ∈
          (updateTime s dt).1.waves) ∧
        ∀ fr, 0 ≤ ⌊(s.time + dt - w.birthTime) * 10⌋ →
          w.spectrograms[(⌊(s.time + dt - w.birthTime) * 10⌋).toNat]? = some fr →
          fr ∈ (updateTime s dt).2) ∧
      ((w.maxTimeIndex : ℤ) ≤ ⌊(s.time + dt - w.birthTime) * 10⌋ →
        stepWave (s.time + dt) w = ({ w with isActive := false }, none)) ∧
      (∀ w' ∈ (updateTime s dt).1.waves, w'.isActive = true) := by
  refine ⟨?_, ?_, ?_⟩
  · intro hlt
    have hstep := stepWave_alive hact hlt
    constructor
    · show _ ∈ ((s.waves.map (stepWave (s.time + dt))).map Prod.fst).filter
        (fun w => w.isActive)
      apply List.mem_filter.mpr
      constructor
      · have h1 : stepWave (s.time + dt) w ∈ s.waves.map (stepWave (s.time + dt)) :=
          List.mem_map_of_mem _ hw
        have h2 := List.mem_map_of_mem Prod.fst h1
        rw [hstep] at h2
        exact h2
      · exact hact
    · intro fr h0 hsome
      show fr ∈ (s.waves.map (stepWave (s.time + dt))).filterMap Prod.snd
      apply List.mem_filterMap.mpr
      refine ⟨stepWave (s.time + dt) w, List.mem_map_of_mem _ hw, ?_⟩
      rw [hstep]
      show (if 0 ≤ ⌊(s.time + dt - w.birthTime) * 10⌋ then
        w.spectrograms[(⌊(s.time + dt - w.birthTime) * 10⌋).toNat]? else none) = some fr
      rw [if_pos h0]
      exact hsome
  · exact fun hge => stepWave_expired hact hge
  · intro w' hw'
    exact (List.mem_filter.mp hw').2

set_option maxRecDepth 8000 in
/-- C6 witness: one tick of `dt = 1` on the fresh vowel wave surfaces frame
10 and keeps the wave with `currentTimeIndex = 10`. -/
theorem C6_update_expiry_boundary_witness :
    ({ sampleVowelWave with currentTimeIndex := (10:ℤ) } ∈
        (updateTime sampleVowelState 1).1.waves) ∧
      generateSpectrogramFrame .vowel 10 (phoneticProfile .vowel) (sampleNoise 10) ∈
        (updateTime sampleVowelState 1).2 := by
  have hw : sampleVowelWave ∈ sampleVowelState.waves := by
    rw [sampleVowelState_waves]
    exact List.mem_singleton.mpr rfl
  have hact : sampleVowelWave.isActive = true := rfl
  have hfloor : ⌊(sampleVowelState.time + 1 - sampleVowelWave.birthTime) * 10⌋ = (10:ℤ) := by
    show ⌊((0:ℚ) + 1 - 0) * 10⌋ = (10:ℤ)
    norm_num
  have hlt : ⌊(sampleVowelState.time + 1 - sampleVowelWave.birthTime) * 10⌋ <
      (sampleVowelWave.maxTimeIndex : ℤ) := by
    rw [hfloor]
    show (10:ℤ) < ((maxTimeIndexFor .vowel : ℕ) : ℤ)
    rw [maxTimeIndexFor_vowel]
    norm_num
  have h := (C6_update_expiry_boundary sampleVowelState 1 sampleVowelWave hw hact).1 hlt
  constructor
  · have h1 := h.1
    rw [hfloor] at h1
    exact h1
  · apply h.2
    · rw [hfloor]; norm_num
    · rw [hfloor]
      have hspec : sampleVowelWave.spectrograms =
          (List.range (maxTimeIndexFor .vowel)).map
            (fun t => generateSpectrogramFrame .vowel t (phoneticProfile .vowel)
              (sampleNoise t)) := rfl
      have hnat : ((10:ℤ).toNat) = (10:ℕ) := rfl
      rw [hspec, hnat, List.getElem?_map,
        List.getElem?_range (by rw [maxTimeIndexFor_vowel]; norm_num)]
      rfl

/-- C6 counterexample: generate a vowel wave (`maxTimeIndex = 800`,
birth at clock 0) and call `updateTime 80`: the new index is exactly
`⌊80 * 10⌋ = 800 = maxTimeIndex`.  The claim says such a wave is not
expired and contributes a frame; the code expires it — the active count
drops to 0 and no frame is returned. -/
theorem C6_counterexample :
    ⌊(sampleVowelState.time + 80 - sampleVowelWave.birthTime) * 10⌋ =
        (sampleVowelWave.maxTimeIndex : ℤ) ∧
      getActiveWaveCount (updateTime sampleVowelState 80).1 = 0 ∧
      (updateTime sampleVowelState 80).2 = [] := by
  have hfloor : ⌊(sampleVowelState.time + 80 - sampleVowelWave.birthTime) * 10⌋ =
      (800:ℤ) := by
    show ⌊((0:ℚ) + 80 - 0) * 10⌋ = (800:ℤ)
    norm_num
  have hmax : (sampleVowelWave.maxTimeIndex : ℤ) = (800:ℤ) := by
    show ((maxTimeIndexFor .vowel : ℕ) : ℤ) = (800:ℤ)
    rw [maxTimeIndexFor_vowel]
    norm_num
  have hact : sampleVowelWave.isActive = true := rfl
  have hstep : stepWave (sampleVowelState.time + 80) sampleVowelWave =
      ({ sampleVowelWave with isActive := false }, none) :=
    stepWave_expired hact (by rw [hfloor, hmax])
  refine ⟨by rw [hfloor, hmax], ?_, ?_⟩
  · show (((((sampleVowelState.waves).map (stepWave (sampleVowelState.time + 80))).map
        Prod.fst).filter (fun w => w.isActive)).filter (fun w => w.isActive)).length = 0
    rw [sampleVowelState_waves]
    rw [List.map_singleton, hstep]
    rfl
  · show ((sampleVowelState.waves).map (stepWave (sampleVowelState.time + 80))).filterMap
        Prod.snd = []
    rw [sampleVowelState_waves]
    rw [List.map_singleton, hstep]
    rfl

/-- The vowel envelope in closed form. -/
lemma envelope_vowel_eq (t : ℕ) :
    envelope vowelProfile t =
      if (t:ℚ) < 50 then (t:ℚ)/50
      else if (t:ℚ) > 600 then 1 - ((t:ℚ) - 600)/200
      else 9/10 := by
  unfold envelope vowelProfile
  norm_num

/-- The vowel envelope is positive on frames 1 to 799. -/
lemma envelope_vowel_pos {t : ℕ} (h1 : 1 ≤ t) (h2 : t ≤ 799) :
    0 < envelope vowelProfile t := by
  have ht1 : (1:ℚ) ≤ (t:ℚ) := by exact_mod_cast h1
  have ht2 : (t:ℚ) ≤ 799 := by exact_mod_cast h2
  rw [envelope_vowel_eq]
  split_ifs with ha hd
  · apply div_pos (by linarith) (by norm_num)
  · have : ((t:ℚ) - 600)/200 < 1 := (div_lt_one (by norm_num)).mpr (by linarith)
    linarith
  · norm_num

/-- Bin 2, the lowest vowel formant's center bin. -/
def vowelPeakBin : Fin 100 := ⟨2, by norm_num⟩

/-- Every raw vowel bin is at most `0.8 * envelope`: bins sit in at most one
of the three disjoint formant windows, and the Gaussian factor is ≤ 1. -/
lemma rawFrequencyBins_vowel_le (t : ℕ) (noise : Fin 100 → ℝ)
    (hE : (0:ℝ) ≤ ((envelope vowelProfile t : ℚ) : ℝ)) (i : Fin 100) :
    rawFrequencyBins .vowel t vowelProfile noise i ≤
      (4/5) * ((envelope vowelProfile t : ℚ) : ℝ) := by
  have hi0 : (0:ℤ) ≤ (i : ℤ) := Int.natCast_nonneg _
  have hampc : ((vowelProfile.amplitude : ℚ) : ℝ) = 4/5 := by norm_num [vowelProfile]
  have hamp : 0 ≤ vowelProfile.amplitude := by norm_num [vowelProfile]
  have hub : ∀ cf : ℚ, peakContribution vowelProfile
      ((envelope vowelProfile t : ℚ) : ℝ) cf i ≤
        (4/5) * ((envelope vowelProfile t : ℚ) : ℝ) := by
    intro cf
    have h : peakContribution vowelProfile ((envelope vowelProfile t : ℚ) : ℝ) cf i ≤
        (vowelProfile.amplitude : ℝ) * ((envelope vowelProfile t : ℚ) : ℝ) :=
      peakContribution_le hamp hE
    rwa [hampc] at h
  have hEnn : (0:ℝ) ≤ (4/5) * ((envelope vowelProfile t : ℚ) : ℝ) := by
    apply mul_nonneg (by norm_num) hE
  rw [rawFrequencyBins_vowel]
  by_cases h1 : (i:ℤ) < 4
  · rw [peakContribution_eval_out binIndex_1200 bandwidthBins_vowel (by omega),
      peakContribution_eval_out binIndex_2500 bandwidthBins_vowel (by omega)]
    linarith [hub 300]
  · by_cases h2 : 11 ≤ (i:ℤ) ∧ (i:ℤ) < 15
    · rw [peakContribution_eval_out binIndex_300 bandwidthBins_vowel (by omega),
        peakContribution_eval_out binIndex_2500 bandwidthBins_vowel (by omega)]
      linarith [hub 1200]
    · by_cases h3 : 28 ≤ (i:ℤ) ∧ (i:ℤ) < 32
      · rw [peakContribution_eval_out binIndex_300 bandwidthBins_vowel (by omega),
          peakContribution_eval_out binIndex_1200 bandwidthBins_vowel (by omega)]
        linarith [hub 2500]
      · rw [peakContribution_eval_out binIndex_300 bandwidthBins_vowel (by omega),
          peakContribution_eval_out binIndex_1200 bandwidthBins_vowel (by omega),
          peakContribution_eval_out binIndex_2500 bandwidthBins_vowel (by omega)]
        linarith

/-- The raw vowel bin at the 300 Hz formant center is exactly
`0.8 * envelope`. -/
lemma rawFrequencyBins_vowel_peak (t : ℕ) (noise : Fin 100 → ℝ) :
    rawFrequencyBins .vowel t vowelProfile noise vowelPeakBin =
      (4/5) * ((envelope vowelProfile t : ℚ) : ℝ) := by
  rw [rawFrequencyBins_vowel]
  rw [peakContribution_center (by rw [binIndex_300]; rfl)
    (by rw [bandwidthBins_vowel]; norm_num)]
  rw [peakContribution_eval_out binIndex_1200 bandwidthBins_vowel (by decide),
    peakContribution_eval_out binIndex_2500 bandwidthBins_vowel (by decide)]
  have hampc : ((vowelProfile.amplitude : ℚ) : ℝ) = 4/5 := by norm_num [vowelProfile]
  rw [hampc]
  ring

/-- With a positive envelope, normalization pins the vowel's peak bin to
exactly 1. -/
lemma normalizedBins_vowel_peak (t : ℕ) (noise : Fin 100 → ℝ)
    (hEpos : (0:ℝ) < ((envelope vowelProfile t : ℚ) : ℝ)) :
    normalizedBins .vowel t vowelProfile noise vowelPeakBin = 1 := by
  have hub : ∀ i, rawFrequencyBins .vowel t vowelProfile noise i ≤
      rawFrequencyBins .vowel t vowelProfile noise vowelPeakBin := by
    intro i
    rw [rawFrequencyBins_vowel_peak]
    exact rawFrequencyBins_vowel_le t noise hEpos.le i
  have hmax := maxBinValue_eq_of_peak hub
  have hpeak : (0:ℝ) < rawFrequencyBins .vowel t vowelProfile noise vowelPeakBin := by
    rw [rawFrequencyBins_vowel_peak]
    linarith
  unfold normalizedBins
  rw [hmax, if_pos hpeak, div_self hpeak.ne']
  norm_num

/-- C7 counterexample: at `timeIndex = 1` and `timeIndex = 2`, both inside
the vowel's attack window `[0, 50)`, the synthesized frame's peak-formant
bin equals exactly 1 both times (normalization always rescales the peak to
1), so the output bin energy does not strictly increase during attack. -/
theorem C7_counterexample :
    (generateSpectrogramFrame .vowel 1 vowelProfile (fun _ => 0)).frequencyBins
        vowelPeakBin = 1 ∧
      (generateSpectrogramFrame .vowel 2 vowelProfile (fun _ => 0)).frequencyBins
        vowelPeakBin = 1 := by
  constructor
  · apply normalizedBins_vowel_peak
    exact_mod_cast envelope_vowel_pos (t := 1) (by norm_num) (by norm_num)
  · apply normalizedBins_vowel_peak
    exact_mod_cast envelope_vowel_pos (t := 2) (by norm_num) (by norm_num)

/-- C7 (amended): the *pre-normalization* energy of the vowel's peak bin,
`0.8 * envelope`, strictly increases during the attack window, is constant
at sustain through the middle, and strictly decreases within the decay
window; the *normalized* output at the peak bin is constantly 1 for every
frame from 1 through 799 (so the published frames cannot strictly
increase). -/
theorem C7_envelope_monotonicity (t1 t2 : ℕ) :
    (t1 < t2 → t2 ≤ 49 →
      rawFrequencyBins .vowel t1 vowelProfile (fun _ => 0) vowelPeakBin <
        rawFrequencyBins .vowel t2 vowelProfile (fun _ => 0) vowelPeakBin) ∧
      (50 ≤ t1 → t1 ≤ 600 → 50 ≤ t2 → t2 ≤ 600 →
        rawFrequencyBins .vowel t1 vowelProfile (fun _ => 0) vowelPeakBin =
          rawFrequencyBins .vowel t2 vowelProfile (fun _ => 0) vowelPeakBin) ∧
      (600 < t1 → t1 < t2 →
        rawFrequencyBins .vowel t2 vowelProfile (fun _ => 0) vowelPeakBin <
          rawFrequencyBins .vowel t1 vowelProfile (fun _ => 0) vowelPeakBin) ∧
      (1 ≤ t1 → t1 ≤ 799 →
        normalizedBins .vowel t1 vowelProfile (fun _ => 0) vowelPeakBin = 1) := by
  refine ⟨?_, ?_, ?_, ?_⟩
  · intro hlt hub
    rw [rawFrequencyBins_vowel_peak, rawFrequencyBins_vowel_peak]
    have hq : envelope vowelProfile t1 < envelope vowelProfile t2 := by
      rw [envelope_vowel_eq, envelope_vowel_eq]
      have c1 : (t1:ℚ) < 50 := by
        have : (t1:ℚ) < (t2:ℚ) := by exact_mod_cast hlt
        have : (t2:ℚ) ≤ 49 := by exact_mod_cast hub
        linarith
      have c2 : (t2:ℚ) < 50 := by
        have : (t2:ℚ) ≤ 49 := by exact_mod_cast hub
        linarith
      rw [if_pos c1, if_pos c2]
      have : (t1:ℚ) < (t2:ℚ) := by exact_mod_cast hlt
      linarith
    have hqR : ((envelope vowelProfile t1 : ℚ) : ℝ) <
        ((envelope vowelProfile t2 : ℚ) : ℝ) := by exact_mod_cast hq
    linarith
  · intro ha1 hb1 ha2 hb2
    rw [rawFrequencyBins_vowel_peak, rawFrequencyBins_vowel_peak]
    have hq : envelope vowelProfile t1 = envelope vowelProfile t2 := by
      rw [envelope_vowel_eq, envelope_vowel_eq]
      have d1 : ¬ ((t1:ℚ) < 50) := by push_neg; exact_mod_cast ha1
      have d2 : ¬ ((t1:ℚ) > 600) := by push_neg; exact_mod_cast hb1
      have d3 : ¬ ((t2:ℚ) < 50) := by push_neg; exact_mod_cast ha2
      have d4 : ¬ ((t2:ℚ) > 600) := by push_neg; exact_mod_cast hb2
      rw [if_neg d1, if_neg d2, if_neg d3, if_neg d4]
    rw [hq]
  · intro ha hlt
    rw [rawFrequencyBins_vowel_peak, rawFrequencyBins_vowel_peak]
    have hq : envelope vowelProfile t2 < envelope vowelProfile t1 := by
      rw [envelope_vowel_eq, envelope_vowel_eq]
      have c1 : (600:ℚ) < (t1:ℚ) := by exact_mod_cast ha
      have c2 : (t1:ℚ) < (t2:ℚ) := by exact_mod_cast hlt
      rw [if_neg (by linarith), if_pos (by linarith),
        if_neg (by linarith), if_pos (by linarith)]
      linarith
    have hqR : ((envelope vowelProfile t2 : ℚ) : ℝ) <
        ((envelope vowelProfile t1 : ℚ) : ℝ) := by exact_mod_cast hq
    linarith
  · intro h1 h2
    apply normalizedBins_vowel_peak
    exact_mod_cast envelope_vowel_pos h1 h2

/-- C7 witness: the amended monotonicity at concrete frames — attack at
`(1,2)`, sustain at `(100, 200)`, decay at `(650, 700)`, and the pinned
normalized peak at frame 5. -/
theorem C7_envelope_monotonicity_witness :
    (rawFrequencyBins .vowel 1 vowelProfile (fun _ => 0) vowelPeakBin <
        rawFrequencyBins .vowel 2 vowelProfile (fun _ => 0) vowelPeakBin) ∧
      (rawFrequencyBins .vowel 100 vowelProfile (fun _ => 0) vowelPeakBin =
        rawFrequencyBins .vowel 200 vowelProfile (fun _ => 0) vowelPeakBin) ∧
      (rawFrequencyBins .vowel 700 vowelProfile (fun _ => 0) vowelPeakBin <
        rawFrequencyBins .vowel 650 vowelProfile (fun _ => 0) vowelPeakBin) ∧
      normalizedBins .vowel 5 vowelProfile (fun _ => 0) vowelPeakBin = 1 :=
  ⟨(C7_envelope_monotonicity 1 2).1 (by norm_num) (by norm_num),
    (C7_envelope_monotonicity 100 200).2.1 (by norm_num) (by norm_num)
      (by norm_num) (by norm_num),
    (C7_envelope_monotonicity 650 700).2.2.1 (by norm_num) (by norm_num),
    (C7_envelope_monotonicity 5 5).2.2.2 (by norm_num) (by norm_num)⟩

/-- The raw fricative bins: three broadband peaks plus the scaled noise. -/
lemma rawFrequencyBins_fricative (t : ℕ) (noise : Fin 100 → ℝ) (i : Fin 100) :
    rawFrequencyBins .fricative t fricativeProfile noise i =
      peakContribution fricativeProfile ((envelope fricativeProfile t : ℚ) : ℝ) 3000 i +
        peakContribution fricativeProfile ((envelope fricativeProfile t : ℚ) : ℝ) 5000 i +
        peakContribution fricativeProfile ((envelope fricativeProfile t : ℚ) : ℝ) 7000 i +
        noise i * (1/10) * ((envelope fricativeProfile t : ℚ) : ℝ) := by
  unfold rawFrequencyBins
  rw [modulatedEnvelope_fricative]
  show (List.map _ fricativeProfile.peakFrequencies).sum + _ = _
  rw [show fricativeProfile.peakFrequencies = [3000, 5000, 7000] from rfl]
  simp
  ring

/-- C9 (amended): before normalization the fricative noise injection is
additive and bounded: two synthesizer runs at the same `timeIndex` with
different `Math.random()` draws (each in `[0,1)`) have identical
deterministic peak shapes and differ per bin by at most `0.1 * envelope`.
(After normalization the bound can fail — see the counterexample.) -/
theorem C9_noise_additive_bounded (t : ℕ) (p : PhoneticProfile)
    (n1 n2 : Fin 100 → ℝ) (henv : (0:ℝ) ≤ ((envelope p t : ℚ) : ℝ))
    (h1 : ∀ i, 0 ≤ n1 i ∧ n1 i < 1) (h2 : ∀ i, 0 ≤ n2 i ∧ n2 i < 1)
    (i : Fin 100) :
    |rawFrequencyBins .fricative t p n1 i - rawFrequencyBins .fricative t p n2 i| ≤
        (1/10) * ((envelope p t : ℚ) : ℝ) ∧
      rawFrequencyBins .fricative t p n1 i -
          n1 i * (1/10) * ((envelope p t : ℚ) : ℝ) =
        rawFrequencyBins .fricative t p n2 i -
          n2 i * (1/10) * ((envelope p t : ℚ) : ℝ) := by
  have key : rawFrequencyBins .fricative t p n1 i -
      rawFrequencyBins .fricative t p n2 i =
        (n1 i - n2 i) * ((1/10) * ((envelope p t : ℚ) : ℝ)) := by
    unfold rawFrequencyBins
    rw [modulatedEnvelope_fricative, if_pos rfl, if_pos rfl]
    ring
  constructor
  · rw [key, abs_mul,
      abs_of_nonneg (show (0:ℝ) ≤ (1/10) * ((envelope p t : ℚ) : ℝ) by linarith)]
    have habs : |n1 i - n2 i| ≤ 1 := abs_le.mpr
      ⟨by linarith [(h1 i).1, (h2 i).2], by linarith [(h1 i).2, (h2 i).1]⟩
    calc |n1 i - n2 i| * ((1/10) * ((envelope p t : ℚ) : ℝ)) ≤
          1 * ((1/10) * ((envelope p t : ℚ) : ℝ)) :=
        mul_le_mul_of_nonneg_right habs (by linarith)
      _ = (1/10) * ((envelope p t : ℚ) : ℝ) := one_mul _
  · unfold rawFrequencyBins
    rw [modulatedEnvelope_fricative, if_pos rfl, if_pos rfl]
    ring

/-- C9 witness: two concrete zero/half noise draws at the fricative's
sustain frame 100. -/
theorem C9_noise_additive_bounded_witness :
    |rawFrequencyBins .fricative 100 fricativeProfile (fun _ => 0) vowelPeakBin -
        rawFrequencyBins .fricative 100 fricativeProfile (fun _ => 1/2) vowelPeakBin| ≤
      (1/10) * ((envelope fricativeProfile 100 : ℚ) : ℝ) :=
  (C9_noise_additive_bounded 100 fricativeProfile (fun _ => 0) (fun _ => 1/2)
    (by norm_num [envelope, fricativeProfile])
    (fun _ => by norm_num) (fun _ => by norm_num) vowelPeakBin).1

/-- Bin 36, the 3000 Hz fricative formant center. -/
def fricBin36 : Fin 100 := ⟨36, by norm_num⟩

/-- Bin 61, the 5000 Hz fricative formant center. -/
def fricBin61 : Fin 100 := ⟨61, by norm_num⟩

/-- A noise draw putting `1/2` on bin 36 and 0 elsewhere. -/
noncomputable def fricNoiseA : Fin 100 → ℝ := fun i => if i = fricBin36 then 1/2 else 0

/-- A noise draw putting `1/2` on bin 61 and 0 elsewhere. -/
noncomputable def fricNoiseB : Fin 100 → ℝ := fun i => if i = fricBin61 then 1/2 else 0

/-- The fricative envelope at frame 100 is the sustain level `4/5`. -/
lemma envelope_fricative_100 : envelope fricativeProfile 100 = 4/5 := by
  norm_num [envelope, fricativeProfile]

/-- The fricative envelope at frame 100, cast to the reals. -/
lemma envelope_fricative_100R : ((envelope fricativeProfile 100 : ℚ) : ℝ) = 4/5 := by
  rw [envelope_fricative_100]
  norm_num

/-- The deterministic fricative bins are bounded by `0.4 * envelope`: the
three formant windows `[24,48)`, `[49,73)`, `[74,98)` are disjoint. -/
lemma fricDet_le (t : ℕ)
    (hE : (0:ℝ) ≤ ((envelope fricativeProfile t : ℚ) : ℝ)) (i : Fin 100) :
    peakContribution fricativeProfile ((envelope fricativeProfile t : ℚ) : ℝ) 3000 i +
        peakContribution fricativeProfile ((envelope fricativeProfile t : ℚ) : ℝ) 5000 i +
        peakContribution fricativeProfile ((envelope fricativeProfile t : ℚ) : ℝ) 7000 i ≤
      (2/5) * ((envelope fricativeProfile t : ℚ) : ℝ) := by
  have hi0 : (0:ℤ) ≤ (i : ℤ) := Int.natCast_nonneg _
  have hampc : ((fricativeProfile.amplitude : ℚ) : ℝ) = 2/5 := by
    norm_num [fricativeProfile]
  have hamp : 0 ≤ fricativeProfile.amplitude := by norm_num [fricativeProfile]
  have hub : ∀ cf : ℚ, peakContribution fricativeProfile
      ((envelope fricativeProfile t : ℚ) : ℝ) cf i ≤
        (2/5) * ((envelope fricativeProfile t : ℚ) : ℝ) := by
    intro cf
    have h : peakContribution fricativeProfile
        ((envelope fricativeProfile t : ℚ) : ℝ) cf i ≤
          (fricativeProfile.amplitude : ℝ) * ((envelope fricativeProfile t : ℚ) : ℝ) :=
      peakContribution_le hamp hE
    rwa [hampc] at h
  have hEnn : (0:ℝ) ≤ (2/5) * ((envelope fricativeProfile t : ℚ) : ℝ) :=
    mul_nonneg (by norm_num) hE
  by_cases h1 : (i:ℤ) < 48 ∧ 24 ≤ (i:ℤ)
  · rw [peakContribution_eval_out binIndex_5000 bandwidthBins_fricative (by omega),
      peakContribution_eval_out binIndex_7000 bandwidthBins_fricative (by omega)]
    linarith [hub 3000]
  · by_cases h2 : 49 ≤ (i:ℤ) ∧ (i:ℤ) < 73
    · rw [peakContribution_eval_out binIndex_3000 bandwidthBins_fricative (by omega),
        peakContribution_eval_out binIndex_7000 bandwidthBins_fricative (by omega)]
      linarith [hub 5000]
    · by_cases h3 : 74 ≤ (i:ℤ) ∧ (i:ℤ) < 98
      · rw [peakContribution_eval_out binIndex_3000 bandwidthBins_fricative (by omega),
          peakContribution_eval_out binIndex_5000 bandwidthBins_fricative (by omega)]
        linarith [hub 7000]
      · rw [peakContribution_eval_out binIndex_3000 bandwidthBins_fricative (by omega),
          peakContribution_eval_out binIndex_5000 bandwidthBins_fricative (by omega),
          peakContribution_eval_out binIndex_7000 bandwidthBins_fricative (by omega)]
        linarith

/-- The deterministic fricative contributions at bin 36. -/
lemma fricDet_at36 (t : ℕ) :
    peakContribution fricativeProfile ((envelope fricativeProfile t : ℚ) : ℝ) 3000 fricBin36 =
        (2/5) * ((envelope fricativeProfile t : ℚ) : ℝ) ∧
      peakContribution fricativeProfile ((envelope fricativeProfile t : ℚ) : ℝ) 5000 fricBin36 = 0 ∧
      peakContribution fricativeProfile ((envelope fricativeProfile t : ℚ) : ℝ) 7000 fricBin36 = 0 := by
  refine ⟨?_, ?_, ?_⟩
  · rw [peakContribution_center (by rw [binIndex_3000]; rfl)
      (by rw [bandwidthBins_fricative]; norm_num)]
    norm_num [fricativeProfile]
  · exact peakContribution_eval_out binIndex_5000 bandwidthBins_fricative (by decide)
  · exact peakContribution_eval_out binIndex_7000 bandwidthBins_fricative (by decide)

/-- The deterministic fricative contributions at bin 61. -/
lemma fricDet_at61 (t : ℕ) :
    peakContribution fricativeProfile ((envelope fricativeProfile t : ℚ) : ℝ) 3000 fricBin61 = 0 ∧
      peakContribution fricativeProfile ((envelope fricativeProfile t : ℚ) : ℝ) 5000 fricBin61 =
        (2/5) * ((envelope fricativeProfile t : ℚ) : ℝ) ∧
      peakContribution fricativeProfile ((envelope fricativeProfile t : ℚ) : ℝ) 7000 fricBin61 = 0 := by
  refine ⟨?_, ?_, ?_⟩
  · exact peakContribution_eval_out binIndex_3000 bandwidthBins_fricative (by decide)
  · rw [peakContribution_center (by rw [binIndex_5000]; rfl)
      (by rw [bandwidthBins_fricative]; norm_num)]
    norm_num [fricativeProfile]
  · exact peakContribution_eval_out binIndex_7000 bandwidthBins_fricative (by decide)

/-- Run A peaks at bin 36 with raw value `9/25`. -/
lemma rawA_at36 :
    rawFrequencyBins .fricative 100 fricativeProfile fricNoiseA fricBin36 = 9/25 := by
  rw [rawFrequencyBins_fricative]
  obtain ⟨d1, d2, d3⟩ := fricDet_at36 100
  rw [d1, d2, d3, envelope_fricative_100R]
  show (2:ℝ)/5 * (4/5) + 0 + 0 + (if fricBin36 = fricBin36 then (1:ℝ)/2 else 0) * (1/10) * (4/5) = 9/25
  rw [if_pos rfl]
  norm_num

/-- Every raw bin of run A is at most `9/25`. -/
lemma rawA_le (i : Fin 100) :
    rawFrequencyBins .fricative 100 fricativeProfile fricNoiseA i ≤ 9/25 := by
  rw [rawFrequencyBins_fricative]
  have hdet := fricDet_le 100 (by rw [envelope_fricative_100R]; norm_num) i
  rw [envelope_fricative_100R] at hdet ⊢
  show _ + _ + _ + (if i = fricBin36 then (1:ℝ)/2 else 0) * (1/10) * (4/5) ≤ 9/25
  by_cases hi : i = fricBin36
  · rw [if_pos hi]
    linarith
  · rw [if_neg hi]
    linarith

/-- Run B peaks at bin 61 with raw value `9/25`. -/
lemma rawB_at61 :
    rawFrequencyBins .fricative 100 fricativeProfile fricNoiseB fricBin61 = 9/25 := by
  rw [rawFrequencyBins_fricative]
  obtain ⟨d1, d2, d3⟩ := fricDet_at61 100
  rw [d1, d2, d3, envelope_fricative_100R]
  show (0:ℝ) + 2/5 * (4/5) + 0 + (if fricBin61 = fricBin61 then (1:ℝ)/2 else 0) * (1/10) * (4/5) = 9/25
  rw [if_pos rfl]
  norm_num

/-- Run B at bin 36 carries no noise: raw value `8/25`. -/
lemma rawB_at36 :
    rawFrequencyBins .fricative 100 fricativeProfile fricNoiseB fricBin36 = 8/25 := by
  rw [rawFrequencyBins_fricative]
  obtain ⟨d1, d2, d3⟩ := fricDet_at36 100
  rw [d1, d2, d3, envelope_fricative_100R]
  show (2:ℝ)/5 * (4/5) + 0 + 0 + (if fricBin36 = fricBin61 then (1:ℝ)/2 else 0) * (1/10) * (4/5) = 8/25
  rw [if_neg (by decide)]
  norm_num

/-- Every raw bin of run B is at most `9/25`. -/
lemma rawB_le (i : Fin 100) :
    rawFrequencyBins .fricative 100 fricativeProfile fricNoiseB i ≤ 9/25 := by
  rw [rawFrequencyBins_fricative]
  have hdet := fricDet_le 100 (by rw [envelope_fricative_100R]; norm_num) i
  rw [envelope_fricative_100R] at hdet ⊢
  show _ + _ + _ + (if i = fricBin61 then (1:ℝ)/2 else 0) * (1/10) * (4/5) ≤ 9/25
  by_cases hi : i = fricBin61
  · rw [if_pos hi]
    linarith
  · rw [if_neg hi]
    linarith

/-- Run A normalizes bin 36 to exactly 1. -/
lemma normA_at36 :
    normalizedBins .fricative 100 fricativeProfile fricNoiseA fricBin36 = 1 := by
  have hub : ∀ i, rawFrequencyBins .fricative 100 fricativeProfile fricNoiseA i ≤
      rawFrequencyBins .fricative 100 fricativeProfile fricNoiseA fricBin36 := by
    intro i
    rw [rawA_at36]
    exact rawA_le i
  have hmax := maxBinValue_eq_of_peak hub
  unfold normalizedBins
  rw [hmax, rawA_at36]
  rw [if_pos (by norm_num)]
  norm_num

/-- Run B normalizes bin 36 to `8/9`. -/
lemma normB_at36 :
    normalizedBins .fricative 100 fricativeProfile fricNoiseB fricBin36 = 8/9 := by
  have hub : ∀ i, rawFrequencyBins .fricative 100 fricativeProfile fricNoiseB i ≤
      rawFrequencyBins .fricative 100 fricativeProfile fricNoiseB fricBin61 := by
    intro i
    rw [rawB_at61]
    exact rawB_le i
  have hmax := maxBinValue_eq_of_peak hub
  unfold normalizedBins
  rw [hmax, rawB_at61, rawB_at36]
  rw [if_pos (by norm_num)]
  norm_num

/-- C9 counterexample: at `timeIndex = 100` (envelope `4/5`) two noise
draws — `1/2` on bin 36 versus `1/2` on bin 61 — make the *returned*
(normalized) bin 36 values `1` and `8/9`: they differ by `1/9 ≈ 0.111`,
which exceeds the claimed bound `0.1 * envelope = 0.08`.  Normalization
divides by a noise-dependent maximum, so the returned bins do not differ
only by a bounded noise term. -/
theorem C9_counterexample :
    (generateSpectrogramFrame .fricative 100 fricativeProfile fricNoiseA).frequencyBins
          fricBin36 -
        (generateSpectrogramFrame .fricative 100 fricativeProfile fricNoiseB).frequencyBins
          fricBin36 >
      (1/10) * ((envelope fricativeProfile 100 : ℚ) : ℝ) := by
  show normalizedBins .fricative 100 fricativeProfile fricNoiseA fricBin36 -
      normalizedBins .fricative 100 fricativeProfile fricNoiseB fricBin36 > _
  rw [normA_at36, normB_at36, envelope_fricative_100R]
  norm_num

end PolarWaveEngine

namespace WaveEngine

/-- The envelope shapes of the simple model
(src/client/src/lib/waveEngine.ts, `WaveParams.envelopeType`). -/
inductive EnvelopeType
  | sustained
  | burst
  | modulated
  | broadband
  deriving DecidableEq

/-- `WaveParams` of the simple model.  The phonetic types are the same four
as in the polar engine, so `PolarWaveEngine.PhoneticType` is reused. -/
structure WaveParams where
  freq : ℚ
  amplitude : ℚ
  decay : ℚ
  spread : ℚ
  centerFreq : ℚ
  duration : ℚ
  frequencyBandwidth : ℚ
  attackTime : ℚ
  sustainLevel : ℚ
  modulationRate : ℚ
  envelopeType : EnvelopeType

/-- `phoneticParams.vowel`. -/
def vowelParams : WaveParams :=
  ⟨100, 8/10, 5/100, 2/10, 1/10, 9/10, 1/10, 1/10, 9/10, 0, .sustained⟩

/-- `phoneticParams.trill`. -/
def trillParams : WaveParams :=
  ⟨150, 7/10, 8/100, 4/10, 3/10, 9/10, 3/10, 5/100, 8/10, 8, .modulated⟩

/-- `phoneticParams.fricative`. -/
def fricativeParams : WaveParams :=
  ⟨3000, 3/10, 4/100, 9/10, 6/10, 95/100, 8/10, 2/10, 6/10, 0, .broadband⟩

/-- `phoneticParams.plosive`. -/
def plosiveParams : WaveParams :=
  ⟨1000, 3/2, 4/10, 7/10, 5/10, 2/10, 6/10, 2/100, 1/10, 0, .burst⟩

/-- `this.phoneticParams[phoneticType]`. -/
def phoneticParams : PolarWaveEngine.PhoneticType → WaveParams
  | .vowel => vowelParams
  | .trill => trillParams
  | .fricative => fricativeParams
  | .plosive => plosiveParams

/-- A `Wave` of the simple model; the id counter value stands in for the id
string `wave_${n}`. -/
structure SimpleWave where
  id : ℕ
  birthTime : ℚ
  frequency : ℚ
  amplitude : ℚ
  decay : ℚ
  type : PolarWaveEngine.PhoneticType
  centerAngle : ℝ
  spread : ℚ

/-- The simple engine's state: wave list, clock, id counter. -/
structure WaveEngineState where
  waves : List SimpleWave
  time : ℚ
  waveId : ℕ

/-- `WaveEngine.frequencyToAngle`: logarithmic frequency between 100 Hz and
6 kHz, mapped to the 60 degree arc centered at 0. -/
noncomputable def frequencyToAngle (frequency : ℚ) : ℝ :=
  ((Real.log (frequency : ℝ) - Real.log 100) / (Real.log 6000 - Real.log 100) - 1/2) *
    (Real.pi / 3)

/-- `WaveEngine.generateWave`. -/
noncomputable def generateWave (s : WaveEngineState)
    (ty : PolarWaveEngine.PhoneticType) : WaveEngineState :=
  { waves := s.waves ++ [{
      id := s.waveId,
      birthTime := s.time,
      frequency := (phoneticParams ty).freq,
      amplitude := (phoneticParams ty).amplitude,
      decay := (phoneticParams ty).decay,
      type := ty,
      centerAngle := frequencyToAngle (phoneticParams ty).centerFreq,
      spread := (phoneticParams ty).spread * (phoneticParams ty).frequencyBandwidth }],
    time := s.time,
    waveId := s.waveId + 1 }

/-- `WaveEngine.calculateEnvelope`: amplitude over `normalizedAge`
(`age / (duration * 25)`), switched on the envelope type. -/
noncomputable def calculateEnvelope (p : WaveParams) (age : ℝ) : ℝ :=
  match p.envelopeType with
  | .sustained =>
      if age / ((p.duration : ℝ) * 25) < (p.attackTime : ℝ) then
        (p.amplitude : ℝ) * (age / ((p.duration : ℝ) * 25) / (p.attackTime : ℝ))
      else if age / ((p.duration : ℝ) * 25) < 8/10 then
        (p.amplitude : ℝ) * (p.sustainLevel : ℝ)
      else
        (p.amplitude : ℝ) * (p.sustainLevel : ℝ) *
          ((1 - age / ((p.duration : ℝ) * 25)) / (2/10))
  | .modulated =>
      ((p.amplitude : ℝ) * Real.exp (-(age / ((p.duration : ℝ) * 25)) * (p.decay : ℝ))) *
        (1 + 1/2 * Real.sin (2 * Real.pi * (p.modulationRate : ℝ) * age))
  | .burst =>
      if age / ((p.duration : ℝ) * 25) < (p.attackTime : ℝ) then
        (p.amplitude : ℝ) * (age / ((p.duration : ℝ) * 25) / (p.attackTime : ℝ))
      else
        (p.amplitude : ℝ) * (p.sustainLevel : ℝ) *
          Real.exp (-(age / ((p.duration : ℝ) * 25)) * (p.decay : ℝ) * 10)
  | .broadband =>
      ((p.amplitude : ℝ) * (p.sustainLevel : ℝ)) *
        Real.exp (-(age / ((p.duration : ℝ) * 25)) * (p.decay : ℝ) * (1/2))

/-- `WaveEngine.getWaveRadius`: `age * waveSpeed` with `waveSpeed = 0.08`. -/
def getWaveRadius (engineTime : ℚ) (w : SimpleWave) : ℚ :=
  (engineTime - w.birthTime) * (8/100)

/-- The body of the `forEach` in `calculateHeightAtPosition`: one wave's
additive contribution at logical query point `(frequency, timePos)` —
the bilateral fold of frequency to `activeFreq`, the raised-cosine angular
window, the exponential radial falloff, and the `sin` ripple, gated by the
distance and spread checks. -/
noncomputable def waveContribution (engineTime : ℚ) (w : SimpleWave)
    (frequency timePos : ℝ) : ℝ :=
  if abs (timePos * 10 - (getWaveRadius engineTime w : ℝ)) < 2 then
    if abs (max (if frequency < 1/2 then (1/2 - frequency) * 2 else 0)
          (if 1/2 ≤ frequency then (frequency - 1/2) * 2 else 0) *
          (Real.pi / 3 / 2) - abs w.centerAngle) ≤ (w.spread : ℝ) then
      calculateEnvelope (phoneticParams w.type) ((engineTime - w.birthTime : ℚ) : ℝ) *
        Real.cos (abs (max (if frequency < 1/2 then (1/2 - frequency) * 2 else 0)
            (if 1/2 ≤ frequency then (frequency - 1/2) * 2 else 0) *
            (Real.pi / 3 / 2) - abs w.centerAngle) / (w.spread : ℝ) * Real.pi / 2) *
        Real.exp (-abs (timePos * 10 - (getWaveRadius engineTime w : ℝ)) * (8/10)) *
        Real.sin ((w.frequency : ℝ) / 100 * abs (timePos * 10 -
          (getWaveRadius engineTime w : ℝ)) * Real.pi)
    else 0
  else 0

/-- `WaveEngine.calculateHeightAtPosition`: zero outside the unit square,
otherwise the sum of all wave contributions. -/
noncomputable def calculateHeightAtPosition (s : WaveEngineState)
    (frequency timePos : ℝ) : ℝ :=
  if frequency < 0 ∨ frequency > 1 ∨ timePos < 0 ∨ timePos > 1 then 0
  else (s.waves.map (fun w => waveContribution s.time w frequency timePos)).sum

/-- C10: for every engine state and every query with `frequency` or `time`
outside `[0,1]`, `calculateHeightAtPosition` returns exactly 0 — the
coordinates are rejected, not clamped into range before sampling. -/
theorem C10_out_of_range_zero (s : WaveEngineState) (frequency timePos : ℝ)
    (h : frequency < 0 ∨ frequency > 1 ∨ timePos < 0 ∨ timePos > 1) :
    calculateHeightAtPosition s frequency timePos = 0 := by
  unfold calculateHeightAtPosition
  rw [if_pos h]

/-- C10 witness: a state holding one vowel wave, queried at
`frequency = 2`. -/
theorem C10_out_of_range_zero_witness :
    ((2:ℝ) < 0 ∨ (2:ℝ) > 1 ∨ (1/2:ℝ) < 0 ∨ (1/2:ℝ) > 1) ∧
      calculateHeightAtPosition (generateWave ⟨[], 0, 0⟩ .vowel) 2 (1/2) = 0 :=
  ⟨by norm_num,
    C10_out_of_range_zero (generateWave ⟨[], 0, 0⟩ .vowel) 2 (1/2) (by norm_num)⟩

end WaveEngine

end SurfaceSpectra
